import Mathlib

/-!
Verification of the distribution scheduler in seed-and-plant.py.

The program is a single-threaded asyncio application.  Workers (one per
destination, the inner coroutine move_to_dest of PlotManager.move_plots)
interleave only at await points, so the drain pass is embedded as a small-step
state machine: each step is the code a worker runs between two suspension
points, and the scheduler nondeterministically picks which worker resumes.
The external world (reachability probes, rsync exit codes, files vanishing
from the staging directory) is supplied by the step's action.
-/

namespace SeedAndPlant

/-- Number of plots per bladebit batch (PLOT_COUNT, line 65). -/
def PLOT_COUNT : Nat := 20

/-- The rsync flag tokens (RSYNC_FLAGS, lines 54-58), as a function of the
optional bandwidth limit (BWLIMIT, line 40). -/
def RSYNC_FLAGS (bwlimit : Option Nat) : List String :=
  match bwlimit with
  | some b => ["--remove-source-files", "--preallocate", "--whole-file",
               "--bwlimit=" ++ toString b]
  | none => ["--remove-source-files", "--preallocate", "--whole-file",
             "--progress", "-h"]

/-- A plot file: identity and byte size (plot.stat().st_size). -/
structure PlotFile where
  id : Nat
  size : Nat
deriving DecidableEq

/-- Control point of one destination worker (the move_to_dest coroutine,
lines 166-199), at its genuine suspension points.  awaitTest p: the worker has
dequeued p, read its size, and is suspended in test_destination's subprocess.
awaitTransfer p: the worker has added p to plots_in_transit and is suspended
in transfer_plot's subprocess.  idle: at the top of the while loop.
done: the loop was left via break. -/
inductive WStatus where
  | idle
  | awaitTest (p : PlotFile)
  | awaitTransfer (p : PlotFile)
  | done
deriving DecidableEq

/-- The plot a worker currently references, if any. -/
def heldBy : WStatus → Option PlotFile
  | .awaitTest p => some p
  | .awaitTransfer p => some p
  | _ => none

def isIdle : WStatus → Bool
  | .idle => true
  | _ => false

def isAwaitTest : WStatus → Bool
  | .awaitTest _ => true
  | _ => false

def isAwaitTransfer : WStatus → Bool
  | .awaitTransfer _ => true
  | _ => false

/-- Shared state of one drain pass (PlotManager.move_plots, lines 163-217):
the asyncio queue of pending plots, the shared plots_in_transit set, one
worker status per configured destination, the live free space and the number
of plots received per destination, the set of plot files existing on the
source filesystem, and the two transfer statistics counters. -/
structure State where
  queue : List PlotFile
  inTransit : List PlotFile
  workers : List WStatus
  free : List Nat
  received : List Nat
  sourceFS : List PlotFile
  moved : Nat
  bytesMoved : Nat
deriving DecidableEq

/-- Python's set.add: idempotent insertion (plots_in_transit.add, line 194). -/
def setAdd (l : List PlotFile) (p : PlotFile) : List PlotFile :=
  if p ∈ l then l else l ++ [p]

/-- Python's set.remove / file deletion: drop the element. -/
def setRemove (l : List PlotFile) (p : PlotFile) : List PlotFile :=
  l.filter fun q => decide (q ≠ p)

/-- check_dest_space (lines 118-127): destination mounted and
free_space >= plot_size; any failure (unmounted, exception) yields False. -/
def check_dest_space (mounted : Bool) (free : Nat) (plot_size : Nat) : Bool :=
  mounted && decide (plot_size ≤ free)

/-- Boolean result of transfer_plot (lines 293-311): True exactly on rsync
exit code 0; exit 10 (socket I/O), 11 and 23 (file I/O) and every other
nonzero code all return False. -/
def transfer_plot_result (code : Nat) : Bool :=
  if code = 0 then true
  else if code = 10 then false
  else if code = 11 ∨ code = 23 then false
  else false

/-- One scheduling action: which worker resumes and what its pending external
call returned, or an external deletion of a staging file. -/
inductive Act where
  | sched (d : Nat)
  | test (d : Nat) (ok : Bool) (mounted : Bool)
  | xfer (d : Nat) (code : Nat)
  | vanish (p : PlotFile)
deriving DecidableEq

/-- One atomic step of the drain pass.

sched d (worker d at the top of its loop, lines 167-177): if the queue is
empty, break; otherwise dequeue the head; if the file no longer exists,
task_done and continue; otherwise read its size and suspend in
test_destination.

test d ok mounted (worker d resuming from test_destination, lines 180-192):
if the probe failed, requeue the plot and break; else run check_dest_space
against the live free space; if it fails, requeue the plot and break; else
add the plot to plots_in_transit and suspend in transfer_plot.

xfer d code (worker d resuming from transfer_plot, lines 193-199): on exit
code 0 update the stats and the destination's free space, and the rsync flag
--remove-source-files deletes the source file; on every nonzero exit code the
source file is kept.  Either way remove the plot from plots_in_transit,
task_done, and continue the loop.

vanish p: the environment deletes file p from the staging directory. -/
def step (s : State) (a : Act) : Option State :=
  match a with
  | .sched d =>
    match s.workers[d]? with
    | some .idle =>
      match s.queue with
      | [] => some { s with workers := s.workers.set d .done }
      | p :: rest =>
        if p ∈ s.sourceFS then
          some { s with queue := rest, workers := s.workers.set d (.awaitTest p) }
        else
          some { s with queue := rest }
    | _ => none
  | .test d ok mounted =>
    match s.workers[d]? with
    | some (.awaitTest p) =>
      if ok then
        if check_dest_space mounted ((s.free[d]?).getD 0) p.size then
          some { s with inTransit := setAdd s.inTransit p,
                        workers := s.workers.set d (.awaitTransfer p) }
        else
          some { s with queue := s.queue ++ [p],
                        workers := s.workers.set d .done }
      else
        some { s with queue := s.queue ++ [p],
                      workers := s.workers.set d .done }
    | _ => none
  | .xfer d code =>
    match s.workers[d]? with
    | some (.awaitTransfer p) =>
      if transfer_plot_result code then
        some { s with inTransit := setRemove s.inTransit p,
                      workers := s.workers.set d .idle,
                      sourceFS := setRemove s.sourceFS p,
                      free := s.free.set d ((s.free[d]?).getD 0 - p.size),
                      received := s.received.set d ((s.received[d]?).getD 0 + 1),
                      moved := s.moved + 1,
                      bytesMoved := s.bytesMoved + p.size }
      else
        some { s with inTransit := setRemove s.inTransit p,
                      workers := s.workers.set d .idle }
    | _ => none
  | .vanish p =>
    if p ∈ s.sourceFS then some { s with sourceFS := setRemove s.sourceFS p }
    else none

/-- All workers have left their loops: asyncio.gather returns (line 211). -/
def allDone (s : State) : Bool := s.workers.all fun w => w = .done

/-- Lines 213-217: after gather returns, all_dests_full is set exactly when
the queue is still non-empty. -/
def drainSetsFull (s : State) : Bool := !s.queue.isEmpty

/-- Drain state at the start of move_plots: all discovered plots pending and
on disk, plots_in_transit empty, one idle worker per destination, stats zero.
free0 lists each destination's initially reported free space. -/
def initState (plots : List PlotFile) (free0 : List Nat) : State :=
  { queue := plots
    inTransit := []
    workers := free0.map fun _ => .idle
    free := free0
    received := free0.map fun _ => 0
    sourceFS := plots
    moved := 0
    bytesMoved := 0 }

/-- Reachability under a restricted set of actions (an environment). -/
def ReachIn (A : Act → Prop) : State → State → Prop :=
  Relation.ReflTransGen fun s s' => ∃ a, A a ∧ step s a = some s'

/-- Reachability under arbitrary environment behaviour. -/
def Reach : State → State → Prop := ReachIn fun _ => True

/-- Run a fixed list of actions from a state. -/
def runTrace (s : State) : List Act → Option State
  | [] => some s
  | a :: as => (step s a).bind fun s' => runTrace s' as

/-- Strictly decreasing measure of the drain pass (used for termination). -/
def dMeasure (s : State) : Nat :=
  4 * s.queue.length
    + 3 * s.workers.countP isIdle
    + 6 * s.workers.countP isAwaitTest
    + 5 * s.workers.countP isAwaitTransfer
    + s.sourceFS.length

/-! Main loop (PlotManager.run, lines 219-257) -/

/-- Observable events of one main-loop iteration, in program order. -/
inductive MEvent where
  | scanEv (found : Nat)
  | drainEv
  | roomEv (ok : Bool)
  | createEv (code : Nat)
  | sleepEv (secs : Nat)
deriving DecidableEq

/-- External results consumed by one main-loop iteration: how many plots
scan_for_plots found, the value of all_dests_full after move_plots returned,
the result of check_plotting_drive_space, and the generator's exit code. -/
structure IterOracle where
  scanCount : Nat
  drainFull : Bool
  hasRoom : Bool
  createCode : Nat

/-- Mutable loop state: the all_dests_full flag and the created-plot
counter (stats.total_plots_created). -/
structure LoopSt where
  allDestsFull : Bool
  plotsCreated : Nat
deriving DecidableEq

/-- Whether the iteration left the while loop (then stats.log_stats runs,
line 257) or went around again. -/
inductive IterOutcome where
  | terminated
  | looped
deriving DecidableEq

/-- create_plots (lines 129-154): success is generator exit code zero; on
success the created-plot counter grows by PLOT_COUNT, otherwise it is
untouched. -/
def create_plots (code : Nat) (created : Nat) : Bool × Nat :=
  if code = 0 then (true, created + PLOT_COUNT) else (false, created)

/-- One iteration of the while loop in run (lines 223-251): while-condition
check, scan_for_plots, then either move_plots followed by the all_dests_full
break, or check_plotting_drive_space followed by create_plots with its
backoff sleeps, or the no-room sleep. -/
def runIter (o : IterOracle) (st : LoopSt) : LoopSt × List MEvent × IterOutcome :=
  if st.allDestsFull then (st, [], .terminated)
  else if 0 < o.scanCount then
    let st' : LoopSt := { st with allDestsFull := o.drainFull }
    if st'.allDestsFull then (st', [.scanEv o.scanCount, .drainEv], .terminated)
    else (st', [.scanEv o.scanCount, .drainEv], .looped)
  else if o.hasRoom then
    let r := create_plots o.createCode st.plotsCreated
    if r.1 then
      ({ st with plotsCreated := r.2 },
       [.scanEv o.scanCount, .roomEv true, .createEv o.createCode, .sleepEv 5],
       .looped)
    else
      ({ st with plotsCreated := r.2 },
       [.scanEv o.scanCount, .roomEv true, .createEv o.createCode, .sleepEv 60],
       .looped)
  else
    (st, [.scanEv o.scanCount, .roomEv false, .sleepEv 60], .looped)

/-! Exception paths of transfer_plot and test_destination -/

/-- Python exception classes relevant here.  NameError stands for
UnboundLocalError (a subclass of NameError): reading a local variable that
was never assigned. -/
inductive PyExc where
  | nameError
deriving DecidableEq

/-- The except handler shared in shape by transfer_plot (lines 313-316) and
test_destination (lines 329-332): it prints the caught error and then an
f-string that reads the local variable proc.  The argument is the binding of
proc at handler entry: none when the exception was raised before
create_subprocess_shell assigned it.  Reading the unbound local raises; only
with proc bound does the handler reach its return False. -/
def exceptHandlerReadsProc (proc : Option Nat) : Except PyExc Bool :=
  match proc with
  | none => .error .nameError
  | some _ => .ok false

/-- transfer_plot (lines 268-316) as a function of whether subprocess
creation itself raises and, when it runs, of the transfer tool's exit code. -/
def transfer_plot_run (createRaises : Bool) (code : Nat) : Except PyExc Bool :=
  if createRaises then exceptHandlerReadsProc none
  else .ok (transfer_plot_result code)

/-- test_destination (lines 318-332) as a function of whether subprocess
creation itself raises and, when it runs, of the probe's exit code. -/
def test_destination_run (createRaises : Bool) (code : Nat) : Except PyExc Bool :=
  if createRaises then exceptHandlerReadsProc none
  else .ok (decide (code = 0))

/-! Invariants of the drain pass -/

/-- Worker w currently references plot q. -/
def holdsP (q : PlotFile) : WStatus → Bool :=
  fun w => decide (heldBy w = some q)

/-- Worker w is suspended in transfer_plot on plot q. -/
def xferP (q : PlotFile) : WStatus → Bool :=
  fun w => decide (w = .awaitTransfer q)

/-- How many times plot p is referenced overall: occurrences in the pending
queue plus the number of workers currently holding it. -/
def ownedCount (s : State) (p : PlotFile) : Nat :=
  s.queue.count p + s.workers.countP (holdsP p)

/-- Exclusive ownership: every plot is referenced at most once. -/
def OwnInv (s : State) : Prop := ∀ p, ownedCount s p ≤ 1

/-- Every occurrence in plots_in_transit is backed by a worker suspended in
transfer_plot on that same plot. -/
def TransitInv (s : State) : Prop :=
  ∀ p, s.inTransit.count p ≤ s.workers.countP (xferP p)

/-- The per-destination lists stay aligned with the worker list. -/
def LenInv (s : State) : Prop :=
  s.free.length = s.workers.length ∧ s.received.length = s.workers.length

/-- Admission: a worker suspended in transfer_plot passed the free-space
check, so its destination reports at least the plot's size free. -/
def CapInv (s : State) : Prop :=
  ∀ (d : Nat) (p : PlotFile), s.workers[d]? = some (WStatus.awaitTransfer p) →
    ∃ f, s.free[d]? = some f ∧ p.size ≤ f

/-- Conjunction of all drain-pass invariants. -/
def Inv (s : State) : Prop := OwnInv s ∧ TransitInv s ∧ LenInv s ∧ CapInv s

end SeedAndPlant

namespace SeedAndPlant

theorem countP_set_add {α : Type} (l : List α) (p : α → Bool) (d : Nat) (w : α)
    (h : d < l.length) :
    (l.set d w).countP p + (if p (l.get ⟨d, h⟩) then 1 else 0)
      = l.countP p + (if p w then 1 else 0) := by
  induction l generalizing d with
  | nil => simp at h
  | cons x xs ih =>
    cases d with
    | zero =>
      simp only [List.set, List.countP_cons, List.get]
      omega
    | succ n =>
      have hn : n < xs.length := by simpa using h
      have := ih n hn
      simp only [List.set, List.countP_cons, List.get]
      omega

theorem countP_le_length {α : Type} (l : List α) (p : α → Bool) :
    l.countP p ≤ l.length := List.countP_le_length p

theorem countP_set_get? {α : Type} {l : List α} {d : Nat} {v : α} (p : α → Bool)
    (h : l[d]? = some v) (w : α) :
    (l.set d w).countP p + (if p v then 1 else 0)
      = l.countP p + (if p w then 1 else 0) := by
  obtain ⟨hd, hv⟩ := List.getElem?_eq_some.mp h
  have hcp := countP_set_add l p d w hd
  rw [show l.get ⟨d, hd⟩ = v from hv] at hcp
  exact hcp

theorem setAdd_count (l : List PlotFile) (p q : PlotFile) :
    (setAdd l p).count q ≤ l.count q + (if p = q then 1 else 0) := by
  unfold setAdd
  split
  · exact Nat.le_add_right _ _
  · by_cases hpq : p = q <;>
      simp [List.count_append, List.count_cons, hpq]

theorem setRemove_count_self (l : List PlotFile) (p : PlotFile) :
    (setRemove l p).count p = 0 := by
  simp [setRemove, List.count_eq_zero, List.mem_filter]

theorem setRemove_count_ne (l : List PlotFile) {p q : PlotFile} (h : q ≠ p) :
    (setRemove l p).count q = l.count q := by
  induction l with
  | nil => simp [setRemove]
  | cons x xs ih =>
    by_cases hx : x = p <;>
      simp [setRemove, List.filter_cons, hx, List.count_cons, h] at ih ⊢

theorem setRemove_mem (l : List PlotFile) (p q : PlotFile) :
    q ∈ setRemove l p ↔ q ∈ l ∧ q ≠ p := by
  simp [setRemove, List.mem_filter]

theorem setRemove_length_le (l : List PlotFile) (p : PlotFile) :
    (setRemove l p).length ≤ l.length := List.length_filter_le _ _

theorem setRemove_cons (x : PlotFile) (xs : List PlotFile) (p : PlotFile) :
    setRemove (x :: xs) p
      = if x = p then setRemove xs p else x :: setRemove xs p := by
  by_cases hx : x = p <;> simp [setRemove, List.filter_cons, hx]

theorem setRemove_length_lt (l : List PlotFile) (p : PlotFile) (h : p ∈ l) :
    (setRemove l p).length < l.length := by
  induction l with
  | nil => simp at h
  | cons x xs ih =>
    rw [setRemove_cons]
    by_cases hx : x = p
    · have := setRemove_length_le xs p
      simp [hx]
      omega
    · rcases List.mem_cons.mp h with h' | h'
      · exact absurd h'.symm hx
      · have := ih h'
        simp [hx]
        omega

@[simp] theorem holdsP_idle (q : PlotFile) : holdsP q .idle = false := rfl

@[simp] theorem holdsP_done (q : PlotFile) : holdsP q .done = false := rfl

@[simp] theorem holdsP_awaitTest (q p : PlotFile) :
    holdsP q (.awaitTest p) = decide (p = q) := by
  simp [holdsP, heldBy]

@[simp] theorem holdsP_awaitTransfer (q p : PlotFile) :
    holdsP q (.awaitTransfer p) = decide (p = q) := by
  simp [holdsP, heldBy]

@[simp] theorem xferP_idle (q : PlotFile) : xferP q .idle = false := rfl

@[simp] theorem xferP_done (q : PlotFile) : xferP q .done = false := rfl

@[simp] theorem xferP_awaitTest (q p : PlotFile) :
    xferP q (.awaitTest p) = false := rfl

@[simp] theorem xferP_awaitTransfer (q p : PlotFile) :
    xferP q (.awaitTransfer p) = decide (p = q) := by
  simp [xferP]

theorem xferP_imp_holdsP (q : PlotFile) (w : WStatus) :
    xferP q w = true → holdsP q w = true := by
  cases w <;> simp [xferP, holdsP, heldBy]

theorem inv_step {s s' : State} {a : Act} (hInv : Inv s) (hstep : step s a = some s') :
    Inv s' := by
  obtain ⟨hOwn, hTrans, ⟨hLf, hLr⟩, hCap⟩ := hInv
  cases a with
  | sched d =>
    cases hw : s.workers[d]? with
    | none => simp [step, hw] at hstep
    | some w =>
      cases w with
      | idle =>
        cases hq : s.queue with
        | nil =>
          simp only [step, hw, hq, Option.some.injEq] at hstep
          subst hstep
          refine ⟨?_, ?_, ⟨?_, ?_⟩, ?_⟩
          · intro q
            have h1 := countP_set_get? (holdsP q) hw .done
            simp at h1
            have h0 := hOwn q
            unfold ownedCount at h0 ⊢
            simp only [hq] at h0
            simp
            omega
          · intro q
            have h1 := countP_set_get? (xferP q) hw .done
            simp at h1
            have h0 := hTrans q
            simp
            omega
          · simp [hLf]
          · simp [hLr]
          · intro d' p hd'
            simp at hd'
            by_cases hdd : d = d'
            · subst hdd
              obtain ⟨hlt, _⟩ := List.getElem?_eq_some.mp hw
              rw [List.getElem?_set_self hlt] at hd'
              exact absurd hd' (by simp)
            · rw [List.getElem?_set_ne hdd] at hd'
              simpa using hCap d' p hd'
        | cons p rest =>
          by_cases hps : p ∈ s.sourceFS
          · simp only [step, hw, hq, hps, if_true, Option.some.injEq] at hstep
            subst hstep
            refine ⟨?_, ?_, ⟨?_, ?_⟩, ?_⟩
            · intro q
              have h1 := countP_set_get? (holdsP q) hw (.awaitTest p)
              simp at h1
              have h0 := hOwn q
              unfold ownedCount at h0 ⊢
              rw [hq] at h0
              simp [List.count_cons] at h0 ⊢
              by_cases hpq : p = q
              · subst hpq
                simp at h0 h1
                omega
              · simp [hpq, Ne.symm hpq] at h0 h1
                omega
            · intro q
              have h1 := countP_set_get? (xferP q) hw (.awaitTest p)
              simp at h1
              have h0 := hTrans q
              simp
              omega
            · simp [hLf]
            · simp [hLr]
            · intro d' p' hd'
              simp at hd'
              by_cases hdd : d = d'
              · subst hdd
                obtain ⟨hlt, _⟩ := List.getElem?_eq_some.mp hw
                rw [List.getElem?_set_self hlt] at hd'
                exact absurd hd' (by simp)
              · rw [List.getElem?_set_ne hdd] at hd'
                simpa using hCap d' p' hd'
          · simp only [step, hw, hq, hps, if_false, Option.some.injEq] at hstep
            subst hstep
            refine ⟨?_, ?_, ⟨?_, ?_⟩, ?_⟩
            · intro q
              have h0 := hOwn q
              unfold ownedCount at h0 ⊢
              rw [hq] at h0
              simp [List.count_cons] at h0 ⊢
              omega
            · exact hTrans
            · exact hLf
            · exact hLr
            · exact hCap
      | awaitTest p => simp [step, hw] at hstep
      | awaitTransfer p => simp [step, hw] at hstep
      | done => simp [step, hw] at hstep
  | test d ok mtd =>
    cases hw : s.workers[d]? with
    | none => simp [step, hw] at hstep
    | some w =>
      cases w with
      | idle => simp [step, hw] at hstep
      | awaitTransfer p => simp [step, hw] at hstep
      | done => simp [step, hw] at hstep
      | awaitTest p =>
        have hadm : Inv { s with queue := s.queue ++ [p],
                                 workers := s.workers.set d .done } := by
          refine ⟨?_, ?_, ⟨?_, ?_⟩, ?_⟩
          · intro q
            have h1 := countP_set_get? (holdsP q) hw .done
            simp at h1
            have h0 := hOwn q
            unfold ownedCount at h0 ⊢
            simp [List.count_append, List.count_cons] at h0 ⊢
            by_cases hpq : p = q
            · subst hpq
              simp at h1 ⊢
              omega
            · simp [hpq, Ne.symm hpq] at h1 ⊢
              omega
          · intro q
            have h1 := countP_set_get? (xferP q) hw .done
            simp at h1
            have h0 := hTrans q
            simp
            omega
          · simp [hLf]
          · simp [hLr]
          · intro d' p' hd'
            simp at hd'
            by_cases hdd : d = d'
            · subst hdd
              obtain ⟨hlt, _⟩ := List.getElem?_eq_some.mp hw
              rw [List.getElem?_set_self hlt] at hd'
              exact absurd hd' (by simp)
            · rw [List.getElem?_set_ne hdd] at hd'
              simpa using hCap d' p' hd'
        by_cases hok : ok = true
        · subst hok
          by_cases hch : check_dest_space mtd ((s.free[d]?).getD 0) p.size = true
          · simp only [step, hw] at hstep
            rw [if_pos trivial, if_pos hch] at hstep
            injection hstep with hstep
            subst hstep
            refine ⟨?_, ?_, ⟨?_, ?_⟩, ?_⟩
            · intro q
              have h1 := countP_set_get? (holdsP q) hw (.awaitTransfer p)
              simp at h1
              have h0 := hOwn q
              unfold ownedCount at h0 ⊢
              simp
              omega
            · intro q
              have h1 := countP_set_get? (xferP q) hw (.awaitTransfer p)
              simp at h1
              have h2 := setAdd_count s.inTransit p q
              have h0 := hTrans q
              simp
              by_cases hpq : p = q
              · subst hpq
                simp at h1 h2
                omega
              · simp [hpq] at h1 h2
                omega
            · simp [hLf]
            · simp [hLr]
            · intro d' p' hd'
              simp at hd'
              obtain ⟨hlt, _⟩ := List.getElem?_eq_some.mp hw
              by_cases hdd : d = d'
              · subst hdd
                rw [List.getElem?_set_self hlt] at hd'
                simp at hd'
                subst hd'
                have hdf : d < s.free.length := by omega
                have hfd := List.getElem?_eq_getElem hdf
                refine ⟨_, hfd, ?_⟩
                unfold check_dest_space at hch
                rw [hfd] at hch
                simp at hch
                exact hch.2
              · rw [List.getElem?_set_ne hdd] at hd'
                simpa using hCap d' p' hd'
          · simp only [step, hw] at hstep
            rw [if_pos trivial, if_neg hch] at hstep
            injection hstep with hstep
            subst hstep
            exact hadm
        · have hok' : ok = false := by simpa using hok
          subst hok'
          simp only [step, hw] at hstep
          rw [if_neg (by simp)] at hstep
          injection hstep with hstep
          subst hstep
          exact hadm
  | xfer d code =>
    cases hw : s.workers[d]? with
    | none => simp [step, hw] at hstep
    | some w =>
      cases w with
      | idle => simp [step, hw] at hstep
      | awaitTest p => simp [step, hw] at hstep
      | done => simp [step, hw] at hstep
      | awaitTransfer p =>
        have hmain : ∀ fr rc sf mv bm,
            Inv { s with inTransit := setRemove s.inTransit p,
                         workers := s.workers.set d .idle,
                         free := fr, received := rc, sourceFS := sf,
                         moved := mv, bytesMoved := bm } →
            True := fun _ _ _ _ _ _ => trivial
        by_cases hres : transfer_plot_result code = true
        · simp only [step, hw] at hstep
          rw [if_pos hres] at hstep
          injection hstep with hstep
          subst hstep
          refine ⟨?_, ?_, ⟨?_, ?_⟩, ?_⟩
          · intro q
            have h1 := countP_set_get? (holdsP q) hw .idle
            simp at h1
            have h0 := hOwn q
            unfold ownedCount at h0 ⊢
            simp
            by_cases hpq : p = q
            · subst hpq
              simp at h1
              omega
            · simp [hpq] at h1
              omega
          · intro q
            have h1 := countP_set_get? (xferP q) hw .idle
            simp at h1
            have h0 := hTrans q
            simp
            by_cases hpq : p = q
            · subst hpq
              simp [setRemove_count_self]
            · rw [setRemove_count_ne _ (Ne.symm hpq)]
              simp [hpq] at h1
              omega
          · simp [hLf]
          · simp [hLr]
          · intro d' p' hd'
            simp at hd'
            by_cases hdd : d = d'
            · subst hdd
              obtain ⟨hlt, _⟩ := List.getElem?_eq_some.mp hw
              rw [List.getElem?_set_self hlt] at hd'
              exact absurd hd' (by simp)
            · rw [List.getElem?_set_ne hdd] at hd'
              obtain ⟨f, hf, hsz⟩ := hCap d' p' hd'
              exact ⟨f, by rw [List.getElem?_set_ne hdd]; exact hf, hsz⟩
        · simp only [step, hw] at hstep
          rw [if_neg hres] at hstep
          injection hstep with hstep
          subst hstep
          refine ⟨?_, ?_, ⟨?_, ?_⟩, ?_⟩
          · intro q
            have h1 := countP_set_get? (holdsP q) hw .idle
            simp at h1
            have h0 := hOwn q
            unfold ownedCount at h0 ⊢
            simp
            by_cases hpq : p = q
            · subst hpq
              simp at h1
              omega
            · simp [hpq] at h1
              omega
          · intro q
            have h1 := countP_set_get? (xferP q) hw .idle
            simp at h1
            have h0 := hTrans q
            simp
            by_cases hpq : p = q
            · subst hpq
              simp [setRemove_count_self]
            · rw [setRemove_count_ne _ (Ne.symm hpq)]
              simp [hpq] at h1
              omega
          · simp [hLf]
          · simp [hLr]
          · intro d' p' hd'
            simp at hd'
            by_cases hdd : d = d'
            · subst hdd
              obtain ⟨hlt, _⟩ := List.getElem?_eq_some.mp hw
              rw [List.getElem?_set_self hlt] at hd'
              exact absurd hd' (by simp)
            · rw [List.getElem?_set_ne hdd] at hd'
              simpa using hCap d' p' hd'
  | vanish p =>
    by_cases hps : p ∈ s.sourceFS
    · simp only [step, hps, if_true, Option.some.injEq] at hstep
      subst hstep
      exact ⟨hOwn, hTrans, ⟨hLf, hLr⟩, hCap⟩
    · simp [step, hps] at hstep


@[simp] theorem isIdle_idle : isIdle .idle = true := rfl
@[simp] theorem isIdle_awaitTest (p : PlotFile) : isIdle (.awaitTest p) = false := rfl
@[simp] theorem isIdle_awaitTransfer (p : PlotFile) : isIdle (.awaitTransfer p) = false := rfl
@[simp] theorem isIdle_done : isIdle .done = false := rfl
@[simp] theorem isAwaitTest_idle : isAwaitTest .idle = false := rfl
@[simp] theorem isAwaitTest_awaitTest (p : PlotFile) : isAwaitTest (.awaitTest p) = true := rfl
@[simp] theorem isAwaitTest_awaitTransfer (p : PlotFile) : isAwaitTest (.awaitTransfer p) = false := rfl
@[simp] theorem isAwaitTest_done : isAwaitTest .done = false := rfl
@[simp] theorem isAwaitTransfer_idle : isAwaitTransfer .idle = false := rfl
@[simp] theorem isAwaitTransfer_awaitTest (p : PlotFile) : isAwaitTransfer (.awaitTest p) = false := rfl
@[simp] theorem isAwaitTransfer_awaitTransfer (p : PlotFile) : isAwaitTransfer (.awaitTransfer p) = true := rfl
@[simp] theorem isAwaitTransfer_done : isAwaitTransfer .done = false := rfl

theorem inv_reachIn {A : Act → Prop} {s t : State} (h : ReachIn A s t) (hs : Inv s) :
    Inv t := by
  induction h with
  | refl => exact hs
  | tail _ hbc ih =>
    obtain ⟨a, _, hstep⟩ := hbc
    exact inv_step ih hstep

theorem init_inv (plots : List PlotFile) (free0 : List Nat) (hnd : plots.Nodup) :
    Inv (initState plots free0) := by
  refine ⟨?_, ?_, ⟨?_, ?_⟩, ?_⟩
  · intro q
    have h1 : (free0.map fun _ => WStatus.idle).countP (holdsP q) = 0 := by
      rw [List.countP_eq_zero]
      intro w hw
      obtain ⟨x, _, hx⟩ := List.mem_map.mp hw
      rw [← hx]
      simp
    have h2 := List.nodup_iff_count_le_one.mp hnd q
    unfold ownedCount initState
    dsimp only
    rw [h1]
    omega
  · intro q
    unfold initState
    simp
  · simp [initState]
  · simp [initState]
  · intro d p hd
    unfold initState at hd
    simp only [List.getElem?_map] at hd
    cases h : (free0[d]?) with
    | none => rw [h] at hd; simp at hd
    | some f => rw [h] at hd; simp at hd

theorem measure_step {s s' : State} {a : Act} (hstep : step s a = some s') :
    dMeasure s' < dMeasure s := by
  cases a with
  | sched d =>
    cases hw : s.workers[d]? with
    | none => simp [step, hw] at hstep
    | some w =>
      cases w with
      | idle =>
        cases hq : s.queue with
        | nil =>
          simp only [step, hw, hq, Option.some.injEq] at hstep
          subst hstep
          have h1 := countP_set_get? isIdle hw WStatus.done
          have h2 := countP_set_get? isAwaitTest hw WStatus.done
          have h3 := countP_set_get? isAwaitTransfer hw WStatus.done
          simp at h1 h2 h3
          unfold dMeasure
          simp [hq]
          omega
        | cons p rest =>
          by_cases hps : p ∈ s.sourceFS
          · simp only [step, hw, hq, hps, if_true, Option.some.injEq] at hstep
            subst hstep
            have h1 := countP_set_get? isIdle hw (WStatus.awaitTest p)
            have h2 := countP_set_get? isAwaitTest hw (WStatus.awaitTest p)
            have h3 := countP_set_get? isAwaitTransfer hw (WStatus.awaitTest p)
            simp at h1 h2 h3
            unfold dMeasure
            rw [hq]
            simp
            omega
          · simp only [step, hw, hq, hps, if_false, Option.some.injEq] at hstep
            subst hstep
            unfold dMeasure
            rw [hq]
            simp
      | awaitTest p => simp [step, hw] at hstep
      | awaitTransfer p => simp [step, hw] at hstep
      | done => simp [step, hw] at hstep
  | test d ok mtd =>
    cases hw : s.workers[d]? with
    | none => simp [step, hw] at hstep
    | some w =>
      cases w with
      | idle => simp [step, hw] at hstep
      | awaitTransfer p => simp [step, hw] at hstep
      | done => simp [step, hw] at hstep
      | awaitTest p =>
        have hfail :
            dMeasure { s with queue := s.queue ++ [p],
                              workers := s.workers.set d .done } < dMeasure s := by
          have h1 := countP_set_get? isIdle hw WStatus.done
          have h2 := countP_set_get? isAwaitTest hw WStatus.done
          have h3 := countP_set_get? isAwaitTransfer hw WStatus.done
          simp at h1 h2 h3
          unfold dMeasure
          simp
          omega
        by_cases hok : ok = true
        · subst hok
          by_cases hch : check_dest_space mtd ((s.free[d]?).getD 0) p.size = true
          · simp only [step, hw] at hstep
            rw [if_pos trivial, if_pos hch] at hstep
            injection hstep with hstep
            subst hstep
            have h1 := countP_set_get? isIdle hw (WStatus.awaitTransfer p)
            have h2 := countP_set_get? isAwaitTest hw (WStatus.awaitTransfer p)
            have h3 := countP_set_get? isAwaitTransfer hw (WStatus.awaitTransfer p)
            simp at h1 h2 h3
            unfold dMeasure
            simp
            omega
          · simp only [step, hw] at hstep
            rw [if_pos trivial, if_neg hch] at hstep
            injection hstep with hstep
            subst hstep
            exact hfail
        · have hok' : ok = false := by simpa using hok
          subst hok'
          simp only [step, hw] at hstep
          rw [if_neg (by simp)] at hstep
          injection hstep with hstep
          subst hstep
          exact hfail
  | xfer d code =>
    cases hw : s.workers[d]? with
    | none => simp [step, hw] at hstep
    | some w =>
      cases w with
      | idle => simp [step, hw] at hstep
      | awaitTest p => simp [step, hw] at hstep
      | done => simp [step, hw] at hstep
      | awaitTransfer p =>
        have h1 := countP_set_get? isIdle hw WStatus.idle
        have h2 := countP_set_get? isAwaitTest hw WStatus.idle
        have h3 := countP_set_get? isAwaitTransfer hw WStatus.idle
        simp at h1 h2 h3
        by_cases hres : transfer_plot_result code = true
        · simp only [step, hw] at hstep
          rw [if_pos hres] at hstep
          injection hstep with hstep
          subst hstep
          have h4 := setRemove_length_le s.sourceFS p
          unfold dMeasure
          simp
          omega
        · simp only [step, hw] at hstep
          rw [if_neg hres] at hstep
          injection hstep with hstep
          subst hstep
          unfold dMeasure
          simp
          omega
  | vanish p =>
    by_cases hps : p ∈ s.sourceFS
    · simp only [step, hps, if_true, Option.some.injEq] at hstep
      subst hstep
      have h4 := setRemove_length_lt s.sourceFS p hps
      unfold dMeasure
      simp
      omega
    · simp [step, hps] at hstep

theorem step_progress {s : State} (h : allDone s = false) :
    ∃ a s', step s a = some s' := by
  unfold allDone at h
  rw [List.all_eq_false] at h
  obtain ⟨w, hw, hnd⟩ := h
  obtain ⟨d, hd⟩ := List.mem_iff_getElem?.mp hw
  cases w with
  | idle =>
    have hs : (step s (.sched d)).isSome := by
      cases hq : s.queue with
      | nil => simp [step, hd, hq]
      | cons p rest =>
        by_cases hps : p ∈ s.sourceFS <;> simp [step, hd, hq, hps]
    obtain ⟨s', hs'⟩ := Option.isSome_iff_exists.mp hs
    exact ⟨_, s', hs'⟩
  | awaitTest p =>
    have hs : (step s (.test d false false)).isSome := by simp [step, hd]
    obtain ⟨s', hs'⟩ := Option.isSome_iff_exists.mp hs
    exact ⟨_, s', hs'⟩
  | awaitTransfer p =>
    have hs : (step s (.xfer d 1)).isSome := by
      simp [step, hd, transfer_plot_result]
    obtain ⟨s', hs'⟩ := Option.isSome_iff_exists.mp hs
    exact ⟨_, s', hs'⟩
  | done => simp at hnd

theorem drain_terminates (s : State) : ∃ t, Reach s t ∧ allDone t = true := by
  by_cases hdone : allDone s = true
  · exact ⟨s, Relation.ReflTransGen.refl, hdone⟩
  · have hd' : allDone s = false := by simpa using hdone
    obtain ⟨a, s', hstep⟩ := step_progress hd'
    obtain ⟨t, ht, hta⟩ := drain_terminates s'
    exact ⟨t, Relation.ReflTransGen.head ⟨a, trivial, hstep⟩ ht, hta⟩
termination_by dMeasure s
decreasing_by exact measure_step hstep


theorem reach_of_runTrace {t : State} :
    ∀ (acts : List Act) {s : State}, runTrace s acts = some t → Reach s t := by
  intro acts
  induction acts with
  | nil =>
    intro s h
    simp [runTrace] at h
    rw [h]
    exact Relation.ReflTransGen.refl
  | cons a as ih =>
    intro s h
    rw [runTrace] at h
    cases hx : step s a with
    | none => rw [hx] at h; simp at h
    | some s' =>
      rw [hx] at h
      simp at h
      exact Relation.ReflTransGen.head ⟨a, trivial, hx⟩ (ih h)

theorem transfer_plot_result_true_iff (c : Nat) :
    transfer_plot_result c = true ↔ c = 0 := by
  unfold transfer_plot_result
  split
  · simp_all
  · split
    · simp_all
    · split <;> simp_all


def plotA : PlotFile := ⟨0, 10⟩

def plotB : PlotFile := ⟨1, 10⟩

/-- State after worker 0 dequeues plotA, passes the probe and space check,
and its transfer exits with rsync code 11 (file I/O fault). -/
def c1AfterFault : State :=
  { queue := [plotB], inTransit := [], workers := [.idle],
    free := [100], received := [0], sourceFS := [plotA, plotB],
    moved := 0, bytesMoved := 0 }

/-- C1: refuted by the code.  After a transfer exits with file-system-fault
code 11, the failed plot is NOT returned to the shared queue (the queue holds
only plotB, plotA is gone from it) and the destination is NOT excluded: its
worker returns to idle and its very next scheduling step dequeues the next
file.  The code only prints "planting stopping" without requeueing or
breaking (lines 302-306 and 194-199). -/
theorem claim_C1_fs_fault_behaviour :
    runTrace (initState [plotA, plotB] [100])
        [.sched 0, .test 0 true true, .xfer 0 11]
      = some c1AfterFault
    ∧ plotA ∉ c1AfterFault.queue
    ∧ c1AfterFault.workers = [.idle]
    ∧ step c1AfterFault (.sched 0)
        = some { c1AfterFault with queue := [], workers := [.awaitTest plotB] }
    ∧ plotA ∈ c1AfterFault.sourceFS := by
  decide

/-- C2: a source file is removed from the source filesystem by a transfer
step exactly when the transfer tool exits 0; every nonzero exit code
(including the retryable code 10) leaves the source filesystem untouched.
The deletion is performed by rsync's --remove-source-files flag, present in
both variants of RSYNC_FLAGS.  Probe and dequeue steps never touch the
source filesystem. -/
theorem claim_C2_remove_iff_success :
    (∀ bw : Option Nat, "--remove-source-files" ∈ RSYNC_FLAGS bw) ∧
    (∀ (s s' : State) (d : Nat) (p : PlotFile) (c : Nat),
       s.workers[d]? = some (WStatus.awaitTransfer p) →
       step s (.xfer d c) = some s' →
       (p ∈ s'.sourceFS ↔ p ∈ s.sourceFS ∧ c ≠ 0) ∧
       (c ≠ 0 → s'.sourceFS = s.sourceFS)) ∧
    (∀ (s s' : State) (d : Nat), step s (.sched d) = some s' →
       s'.sourceFS = s.sourceFS) ∧
    (∀ (s s' : State) (d : Nat) (ok mtd : Bool),
       step s (.test d ok mtd) = some s' → s'.sourceFS = s.sourceFS) := by
  refine ⟨?_, ?_, ?_, ?_⟩
  · intro bw
    cases bw <;> simp [RSYNC_FLAGS]
  · intro s s' d p c hw hstep
    by_cases hres : transfer_plot_result c = true
    · have hc0 : c = 0 := (transfer_plot_result_true_iff c).mp hres
      simp only [step, hw] at hstep
      rw [if_pos hres] at hstep
      injection hstep with hstep
      subst hstep
      constructor
      · simp [setRemove_mem, hc0]
      · intro hne
        exact absurd hc0 hne
    · have hcne : c ≠ 0 := fun h => hres (by rw [h]; rfl)
      simp only [step, hw] at hstep
      rw [if_neg hres] at hstep
      injection hstep with hstep
      subst hstep
      exact ⟨by simp [hcne], fun _ => rfl⟩
  · intro s s' d hstep
    cases hw : s.workers[d]? with
    | none => simp [step, hw] at hstep
    | some w =>
      cases w with
      | idle =>
        cases hq : s.queue with
        | nil =>
          simp only [step, hw, hq, Option.some.injEq] at hstep
          subst hstep
          rfl
        | cons p rest =>
          by_cases hps : p ∈ s.sourceFS <;>
            simp only [step, hw, hq, hps, if_true, if_false,
              Option.some.injEq] at hstep <;>
            subst hstep <;> rfl
      | awaitTest p => simp [step, hw] at hstep
      | awaitTransfer p => simp [step, hw] at hstep
      | done => simp [step, hw] at hstep
  · intro s s' d ok mtd hstep
    cases hw : s.workers[d]? with
    | none => simp [step, hw] at hstep
    | some w =>
      cases w with
      | idle => simp [step, hw] at hstep
      | awaitTransfer p => simp [step, hw] at hstep
      | done => simp [step, hw] at hstep
      | awaitTest p =>
        by_cases hok : ok = true
        · subst hok
          by_cases hch : check_dest_space mtd ((s.free[d]?).getD 0) p.size = true
          · simp only [step, hw] at hstep
            rw [if_pos trivial, if_pos hch] at hstep
            injection hstep with hstep
            subst hstep
            rfl
          · simp only [step, hw] at hstep
            rw [if_pos trivial, if_neg hch] at hstep
            injection hstep with hstep
            subst hstep
            rfl
        · have hok' : ok = false := by simpa using hok
          subst hok'
          simp only [step, hw] at hstep
          rw [if_neg (by simp)] at hstep
          injection hstep with hstep
          subst hstep
          rfl

/-- Witness for C2 at a concrete state: worker 0 suspended in a transfer of
plotA that exits with the retryable code 10; the source file survives. -/
theorem claim_C2_witness :
    plotA ∈
        (State.mk [plotB] [] [.idle] [100] [0] [plotA, plotB] 0 0).sourceFS
      ↔ plotA ∈
          (State.mk [plotB] [plotA] [.awaitTransfer plotA] [100] [0]
            [plotA, plotB] 0 0).sourceFS ∧ (10 : Nat) ≠ 0 :=
  (claim_C2_remove_iff_success.2.1
    (State.mk [plotB] [plotA] [.awaitTransfer plotA] [100] [0]
      [plotA, plotB] 0 0)
    (State.mk [plotB] [] [.idle] [100] [0] [plotA, plotB] 0 0)
    0 plotA 10 (by decide) (by decide)).1

/-- C6: on the retryable socket-fault exit code 10, the worker's resume step
leaves the pending queue exactly as it was (no requeue, no duplication),
leaves the source filesystem untouched, records no moved plot, removes the
plot from plots_in_transit, and returns the worker to the top of its loop
(idle, not done). -/
theorem claim_C6_retryable_fault (s : State) (d : Nat) (p : PlotFile)
    (hw : s.workers[d]? = some (WStatus.awaitTransfer p)) :
    ∃ s', step s (.xfer d 10) = some s' ∧ s'.queue = s.queue ∧
      s'.sourceFS = s.sourceFS ∧ s'.moved = s.moved ∧
      s'.workers[d]? = some WStatus.idle ∧ p ∉ s'.inTransit := by
  have hres : transfer_plot_result 10 = false := rfl
  obtain ⟨hlt, _⟩ := List.getElem?_eq_some.mp hw
  refine ⟨{ s with
      inTransit := setRemove s.inTransit p
      workers := s.workers.set d .idle }, ?_, rfl, rfl, rfl, ?_, ?_⟩
  · simp [step, hw, hres]
  · exact List.getElem?_set_self hlt
  · simp [setRemove_mem]

/-- Witness for C6 at a concrete in-flight state. -/
theorem claim_C6_witness :
    ∃ s', step (State.mk [plotB] [plotA] [.awaitTransfer plotA] [100] [0]
        [plotA, plotB] 0 0) (.xfer 0 10) = some s' ∧
      s'.queue = [plotB] ∧
      s'.sourceFS = [plotA, plotB] ∧ s'.moved = 0 ∧
      s'.workers[0]? = some WStatus.idle ∧ plotA ∉ s'.inTransit := by
  obtain ⟨s', h1, h2, h3, h4, h5, h6⟩ :=
    claim_C6_retryable_fault
      (State.mk [plotB] [plotA] [.awaitTransfer plotA] [100] [0]
        [plotA, plotB] 0 0) 0 plotA (by decide)
  exact ⟨s', h1, h2, h3, h4, h5, h6⟩

/-- C7: when the generator exits nonzero the created-plot counter is
unchanged, the iteration sleeps 60 seconds and loops; when it exits zero the
counter grows by exactly PLOT_COUNT.  Structurally, any iteration that
invokes the generator first scanned (finding nothing) and then ran the
staging-room check: the first two events are always the scan and a
successful room check. -/
theorem claim_C7_generator_failure :
    (∀ (o : IterOracle) (st : LoopSt),
       st.allDestsFull = false → o.scanCount = 0 → o.hasRoom = true →
       (o.createCode ≠ 0 →
          (runIter o st).1.plotsCreated = st.plotsCreated ∧
          MEvent.sleepEv 60 ∈ (runIter o st).2.1 ∧
          (runIter o st).2.2 = IterOutcome.looped) ∧
       (o.createCode = 0 →
          (runIter o st).1.plotsCreated = st.plotsCreated + PLOT_COUNT)) ∧
    (∀ (o : IterOracle) (st : LoopSt) (c : Nat),
       MEvent.createEv c ∈ (runIter o st).2.1 →
       (runIter o st).2.1.take 2 = [MEvent.scanEv 0, MEvent.roomEv true]) := by
  constructor
  · intro o st hf hs hr
    by_cases hcc : o.createCode = 0 <;>
      simp [runIter, create_plots, hf, hs, hr, hcc]
  · intro o st c hmem
    by_cases h1 : st.allDestsFull = true
    · simp [runIter, h1] at hmem
    · have h1' : st.allDestsFull = false := by simpa using h1
      by_cases h2 : 0 < o.scanCount
      · by_cases h3 : o.drainFull = true <;>
          simp [runIter, h1', h2, h3] at hmem
      · have hs0 : o.scanCount = 0 := by omega
        by_cases h3 : o.hasRoom = true
        · by_cases hcc : o.createCode = 0 <;>
            simp [runIter, create_plots, h1', h2, h3, hs0, hcc]
        · have h3' : o.hasRoom = false := by simpa using h3
          simp [runIter, h1', h2, h3'] at hmem

/-- Witness for C7: generator failure with code 2 leaves the counter at 7;
success adds PLOT_COUNT. -/
theorem claim_C7_witness :
    ((runIter ⟨0, false, true, 2⟩ ⟨false, 7⟩).1.plotsCreated = 7 ∧
       MEvent.sleepEv 60 ∈ (runIter ⟨0, false, true, 2⟩ ⟨false, 7⟩).2.1 ∧
       (runIter ⟨0, false, true, 2⟩ ⟨false, 7⟩).2.2 = IterOutcome.looped) := by
  exact (claim_C7_generator_failure.1 ⟨0, false, true, 2⟩ ⟨false, 7⟩
    rfl rfl rfl).1 (by decide)

/-- C8: if subprocess creation raises before the handle is bound, the except
handlers of transfer_plot and test_destination read the unbound local proc
and raise NameError (UnboundLocalError); the documented return-False path is
unreachable in that case and is taken only when proc was bound. -/
theorem claim_C8_unbound_local :
    (∀ code : Nat,
       transfer_plot_run true code = Except.error PyExc.nameError ∧
       test_destination_run true code = Except.error PyExc.nameError ∧
       transfer_plot_run true code ≠ Except.ok false) ∧
    (∀ proc : Option Nat,
       exceptHandlerReadsProc proc = Except.ok false ↔ proc.isSome = true) := by
  constructor
  · intro code
    refine ⟨rfl, rfl, by simp [transfer_plot_run, exceptHandlerReadsProc]⟩
  · intro proc
    cases proc <;> simp [exceptHandlerReadsProc]


/-- C3: in every state reachable during a drain pass started on distinct
plot files, a plot in plots_in_transit never also sits in the pending
queue (and vice versa), and no two workers ever reference the same plot. -/
theorem claim_C3_single_reference
    (plots : List PlotFile) (free0 : List Nat) (t : State)
    (hnd : plots.Nodup) (hr : Reach (initState plots free0) t) :
    (∀ p ∈ t.inTransit, p ∉ t.queue) ∧
    (∀ p ∈ t.queue, p ∉ t.inTransit) ∧
    (∀ p : PlotFile, t.workers.countP (holdsP p) ≤ 1) := by
  obtain ⟨hOwn, hTrans, _, _⟩ := inv_reachIn hr (init_inv plots free0 hnd)
  have key : ∀ p : PlotFile, p ∈ t.inTransit → p ∈ t.queue → False := by
    intro p hp hq
    have h1 : 0 < t.inTransit.count p := List.count_pos_iff.mpr hp
    have h2 := hTrans p
    have h3 : t.workers.countP (xferP p) ≤ t.workers.countP (holdsP p) :=
      List.countP_mono_left fun w _ => xferP_imp_holdsP p w
    have h4 := hOwn p
    unfold ownedCount at h4
    have h5 : 0 < t.queue.count p := List.count_pos_iff.mpr hq
    omega
  refine ⟨fun p hp hq => key p hp hq, fun p hq hp => key p hp hq, ?_⟩
  intro p
  have h4 := hOwn p
  unfold ownedCount at h4
  omega

/-- Witness for C3: the state in which worker 0 is transferring plotA while
plotB is still pending, reached by a concrete two-step schedule. -/
theorem claim_C3_witness :
    (∀ p ∈ (State.mk [plotB] [plotA] [.awaitTransfer plotA] [30] [0]
        [plotA, plotB] 0 0).inTransit,
      p ∉ (State.mk [plotB] [plotA] [.awaitTransfer plotA] [30] [0]
        [plotA, plotB] 0 0).queue) ∧
    (∀ p ∈ (State.mk [plotB] [plotA] [.awaitTransfer plotA] [30] [0]
        [plotA, plotB] 0 0).queue,
      p ∉ (State.mk [plotB] [plotA] [.awaitTransfer plotA] [30] [0]
        [plotA, plotB] 0 0).inTransit) ∧
    (∀ p : PlotFile,
      (State.mk [plotB] [plotA] [.awaitTransfer plotA] [30] [0]
        [plotA, plotB] 0 0).workers.countP (holdsP p) ≤ 1) :=
  claim_C3_single_reference [plotA, plotB] [30] _ (by decide)
    (reach_of_runTrace [.sched 0, .test 0 true true] (by decide))

/-- C9: every scheduler step strictly decreases the drain measure, so every
worker loop terminates; from any state a terminal state with all workers
done is reachable (asyncio.gather returns); and because the emptiness check
immediately precedes the dequeue with no suspension point between them, the
dequeue step of a worker facing an empty queue is enabled and simply ends
the worker's loop instead of blocking. -/
theorem claim_C9_drain_terminates :
    (∀ (s s' : State) (a : Act), step s a = some s' →
       dMeasure s' < dMeasure s) ∧
    (∀ s : State, ∃ t, Reach s t ∧ allDone t = true) ∧
    (∀ (s : State) (d : Nat), s.workers[d]? = some WStatus.idle →
       s.queue = [] →
       step s (.sched d) = some { s with workers := s.workers.set d .done }) := by
  refine ⟨fun _ _ _ h => measure_step h, drain_terminates, ?_⟩
  intro s d hw hq
  simp [step, hw, hq]

/-- Witness for C9 at concrete states: a dequeue step decreases the
measure, and on an empty queue the dequeue step ends the worker. -/
theorem claim_C9_witness :
    dMeasure (State.mk [] [] [.awaitTest plotA] [50] [0] [plotA] 0 0)
        < dMeasure (initState [plotA] [50]) ∧
    step (initState [] [50]) (.sched 0)
      = some { initState [] [50] with
          workers := (initState [] [50]).workers.set 0 .done } :=
  ⟨claim_C9_drain_terminates.1 (initState [plotA] [50])
      (State.mk [] [] [.awaitTest plotA] [50] [0] [plotA] 0 0)
      (.sched 0) (by decide),
   claim_C9_drain_terminates.2.2 (initState [] [50]) 0 (by decide) rfl⟩

theorem no_dest_reach {plots : List PlotFile} {t : State}
    (hr : Reach (initState plots []) t) :
    t.queue = plots ∧ t.moved = 0 ∧ t.workers = [] := by
  induction hr with
  | refl => exact ⟨rfl, rfl, rfl⟩
  | tail _ hbc ih =>
    obtain ⟨hq, hm, hwk⟩ := ih
    obtain ⟨a, _, hstep⟩ := hbc
    cases a with
    | sched d => simp [step, hwk] at hstep
    | test d ok mtd => simp [step, hwk] at hstep
    | xfer d code => simp [step, hwk] at hstep
    | vanish p =>
      simp only [step] at hstep
      split at hstep
      · rw [Option.some.injEq] at hstep
        subst hstep
        exact ⟨hq, hm, hwk⟩
      · exact absurd hstep (by simp)

/-- C10: with an empty destination list, the drain pass performs no worker
step at all: every reachable state keeps the full pending queue and zero
moved plots, gather returns at once with all (zero) workers done, the
all_dests_full flag is set because the queue is non-empty, and the main
loop's iteration after such a drain terminates. -/
theorem claim_C10_empty_destinations
    (plots : List PlotFile) (t : State) (hne : plots ≠ [])
    (hr : Reach (initState plots []) t) :
    t.queue = plots ∧ t.moved = 0 ∧ allDone t = true ∧
    drainSetsFull t = true ∧
    (∀ (o : IterOracle) (st : LoopSt), st.allDestsFull = false →
       0 < o.scanCount → o.drainFull = true →
       (runIter o st).2.2 = IterOutcome.terminated ∧
       (runIter o st).1.allDestsFull = true) := by
  obtain ⟨hq, hm, hwk⟩ := no_dest_reach hr
  refine ⟨hq, hm, ?_, ?_, ?_⟩
  · unfold allDone
    rw [hwk]
    rfl
  · unfold drainSetsFull
    rw [hq]
    cases hp : plots with
    | nil => exact absurd hp hne
    | cons a l => rfl
  · intro o st h1 h2 h3
    unfold runIter
    simp [h1, h2, h3]

/-- Witness for C10: one pending plot, no destinations, zero steps. -/
theorem claim_C10_witness :
    (initState [plotA] []).queue = [plotA] ∧
    (initState [plotA] []).moved = 0 ∧
    allDone (initState [plotA] []) = true ∧
    drainSetsFull (initState [plotA] []) = true ∧
    (∀ (o : IterOracle) (st : LoopSt), st.allDestsFull = false →
       0 < o.scanCount → o.drainFull = true →
       (runIter o st).2.2 = IterOutcome.terminated ∧
       (runIter o st).1.allDestsFull = true) :=
  claim_C10_empty_destinations [plotA] (initState [plotA] [])
    (by decide) Relation.ReflTransGen.refl


/-- Worker w currently references some plot. -/
def isHeld : WStatus → Bool := fun w => (heldBy w).isSome

@[simp] theorem isHeld_idle : isHeld .idle = false := rfl
@[simp] theorem isHeld_awaitTest (p : PlotFile) : isHeld (.awaitTest p) = true := rfl
@[simp] theorem isHeld_awaitTransfer (p : PlotFile) : isHeld (.awaitTransfer p) = true := rfl
@[simp] theorem isHeld_done : isHeld .done = false := rfl

/-- Environment of C5: every destination is either unreachable (bad) or
reachable and mounted; transfers would be allowed but never become enabled;
no external deletions. -/
def C5Acts (bad : Nat → Bool) : Act → Prop := fun a =>
  match a with
  | .sched _ => True
  | .test d ok mtd => ok = !bad d ∧ mtd = true
  | .xfer _ _ => True
  | .vanish _ => False

/-- Invariant of a drain pass in which every destination is unreachable or
full: the free-space list and source filesystem never change, every pending
or held plot is one of the discovered plots, no worker ever starts a
transfer, and the number of pending plus held plots is conserved. -/
def C5Inv (plots : List PlotFile) (free0 : List Nat) (t : State) : Prop :=
  t.free = free0 ∧
  t.sourceFS = plots ∧
  (∀ p ∈ t.queue, p ∈ plots) ∧
  (∀ (d : Nat) (p : PlotFile),
     t.workers[d]? = some (WStatus.awaitTest p) → p ∈ plots) ∧
  (∀ (d : Nat) (p : PlotFile),
     t.workers[d]? ≠ some (WStatus.awaitTransfer p)) ∧
  t.queue.length + t.workers.countP isHeld = plots.length

theorem reachIn_of_runTrace {A : Act → Prop} {t : State} :
    ∀ (acts : List Act) {s : State}, (∀ a ∈ acts, A a) →
      runTrace s acts = some t → ReachIn A s t := by
  intro acts
  induction acts with
  | nil =>
    intro s _ h
    simp [runTrace] at h
    rw [h]
    exact Relation.ReflTransGen.refl
  | cons a as ih =>
    intro s hacts h
    rw [runTrace] at h
    cases hx : step s a with
    | none => rw [hx] at h; simp at h
    | some s' =>
      rw [hx] at h
      simp at h
      exact Relation.ReflTransGen.head ⟨a, hacts a (by simp), hx⟩
        (ih (fun b hb => hacts b (by simp [hb])) h)

theorem C5Inv_step {plots : List PlotFile} {free0 : List Nat} {bad : Nat → Bool}
    {t t' : State} {a : Act}
    (hfull : ∀ d : Nat, bad d = false → ∀ p ∈ plots, ((free0[d]?).getD 0) < p.size)
    (hA : C5Acts bad a) (hi : C5Inv plots free0 t) (hstep : step t a = some t') :
    C5Inv plots free0 t' := by
  obtain ⟨hfr, hsrc, hqm, htm, hnx, hcons⟩ := hi
  cases a with
  | sched d =>
    cases hw : t.workers[d]? with
    | none => simp [step, hw] at hstep
    | some w =>
      cases w with
      | idle =>
        cases hq : t.queue with
        | nil =>
          simp only [step, hw, hq, Option.some.injEq] at hstep
          subst hstep
          have h1 := countP_set_get? isHeld hw WStatus.done
          simp at h1
          refine ⟨hfr, hsrc, ?_, ?_, ?_, ?_⟩
          · intro p hp
            simp at hp
          · intro d' p hd'
            simp at hd'
            by_cases hdd : d = d'
            · subst hdd
              obtain ⟨hlt, _⟩ := List.getElem?_eq_some.mp hw
              rw [List.getElem?_set_self hlt] at hd'
              exact absurd hd' (by simp)
            · rw [List.getElem?_set_ne hdd] at hd'
              exact htm d' p hd'
          · intro d' p hd'
            simp at hd'
            by_cases hdd : d = d'
            · subst hdd
              obtain ⟨hlt, _⟩ := List.getElem?_eq_some.mp hw
              rw [List.getElem?_set_self hlt] at hd'
              exact absurd hd' (by simp)
            · rw [List.getElem?_set_ne hdd] at hd'
              exact hnx d' p hd'
          · rw [hq] at hcons
            simp at hcons ⊢
            omega
        | cons p rest =>
          have hpp : p ∈ plots := hqm p (by rw [hq]; simp)
          have hps : p ∈ t.sourceFS := by rw [hsrc]; exact hpp
          simp only [step, hw, hq, hps, if_true, Option.some.injEq] at hstep
          subst hstep
          have h1 := countP_set_get? isHeld hw (WStatus.awaitTest p)
          simp at h1
          refine ⟨hfr, hsrc, ?_, ?_, ?_, ?_⟩
          · intro q hqq
            exact hqm q (by rw [hq]; simp [hqq])
          · intro d' q hd'
            simp at hd'
            by_cases hdd : d = d'
            · subst hdd
              obtain ⟨hlt, _⟩ := List.getElem?_eq_some.mp hw
              rw [List.getElem?_set_self hlt] at hd'
              simp at hd'
              rw [← hd']
              exact hpp
            · rw [List.getElem?_set_ne hdd] at hd'
              exact htm d' q hd'
          · intro d' q hd'
            simp at hd'
            by_cases hdd : d = d'
            · subst hdd
              obtain ⟨hlt, _⟩ := List.getElem?_eq_some.mp hw
              rw [List.getElem?_set_self hlt] at hd'
              exact absurd hd' (by simp)
            · rw [List.getElem?_set_ne hdd] at hd'
              exact hnx d' q hd'
          · rw [hq] at hcons
            simp at hcons ⊢
            omega
      | awaitTest p => simp [step, hw] at hstep
      | awaitTransfer p => exact absurd hw (hnx d p)
      | done => simp [step, hw] at hstep
  | test d ok mtd =>
    obtain ⟨hok, hmtd⟩ := hA
    cases hw : t.workers[d]? with
    | none => simp [step, hw] at hstep
    | some w =>
      cases w with
      | idle => simp [step, hw] at hstep
      | awaitTransfer p => exact absurd hw (hnx d p)
      | done => simp [step, hw] at hstep
      | awaitTest p =>
        have hpp : p ∈ plots := htm d p hw
        have hfail :
            C5Inv plots free0 { t with queue := t.queue ++ [p],
                                       workers := t.workers.set d .done } := by
          have h1 := countP_set_get? isHeld hw WStatus.done
          simp at h1
          refine ⟨hfr, hsrc, ?_, ?_, ?_, ?_⟩
          · intro q hqq
            simp at hqq
            rcases hqq with hqq | hqq
            · exact hqm q hqq
            · rw [hqq]; exact hpp
          · intro d' q hd'
            simp at hd'
            by_cases hdd : d = d'
            · subst hdd
              obtain ⟨hlt, _⟩ := List.getElem?_eq_some.mp hw
              rw [List.getElem?_set_self hlt] at hd'
              exact absurd hd' (by simp)
            · rw [List.getElem?_set_ne hdd] at hd'
              exact htm d' q hd'
          · intro d' q hd'
            simp at hd'
            by_cases hdd : d = d'
            · subst hdd
              obtain ⟨hlt, _⟩ := List.getElem?_eq_some.mp hw
              rw [List.getElem?_set_self hlt] at hd'
              exact absurd hd' (by simp)
            · rw [List.getElem?_set_ne hdd] at hd'
              exact hnx d' q hd'
          · simp
            omega
        by_cases hbad : bad d = true
        · have hokf : ok = false := by rw [hok, hbad]; rfl
          subst hokf
          simp only [step, hw] at hstep
          rw [if_neg (by simp)] at hstep
          injection hstep with hstep
          rw [← hstep]
          exact hfail
        · have hbad' : bad d = false := by simpa using hbad
          have hokt : ok = true := by rw [hok, hbad']; rfl
          subst hokt
          have hch : check_dest_space mtd ((t.free[d]?).getD 0) p.size = false := by
            rw [hmtd, hfr]
            have := hfull d hbad' p hpp
            unfold check_dest_space
            simp
            omega
          simp only [step, hw] at hstep
          rw [if_pos trivial, if_neg (by simp [hch])] at hstep
          injection hstep with hstep
          rw [← hstep]
          exact hfail
  | xfer d code =>
    cases hw : t.workers[d]? with
    | none => simp [step, hw] at hstep
    | some w =>
      cases w with
      | idle => simp [step, hw] at hstep
      | awaitTest p => simp [step, hw] at hstep
      | done => simp [step, hw] at hstep
      | awaitTransfer p => exact absurd hw (hnx d p)
  | vanish p => exact absurd hA (by simp [C5Acts])


theorem C5Inv_reach {plots : List PlotFile} {free0 : List Nat} {bad : Nat → Bool}
    {s t : State}
    (hfull : ∀ d : Nat, bad d = false → ∀ p ∈ plots, ((free0[d]?).getD 0) < p.size)
    (hr : ReachIn (C5Acts bad) s t) (hi : C5Inv plots free0 s) :
    C5Inv plots free0 t := by
  induction hr with
  | refl => exact hi
  | tail _ hbc ih =>
    obtain ⟨a, hA, hstep⟩ := hbc
    exact C5Inv_step hfull hA ih hstep

theorem C5Inv_init (plots : List PlotFile) (free0 : List Nat) :
    C5Inv plots free0 (initState plots free0) := by
  refine ⟨rfl, rfl, fun p hp => hp, ?_, ?_, ?_⟩
  · intro d p hd
    unfold initState at hd
    simp only [List.getElem?_map] at hd
    cases h : (free0[d]?) with
    | none => rw [h] at hd; simp at hd
    | some f => rw [h] at hd; simp at hd
  · intro d p hd
    unfold initState at hd
    simp only [List.getElem?_map] at hd
    cases h : (free0[d]?) with
    | none => rw [h] at hd; simp at hd
    | some f => rw [h] at hd; simp at hd
  · have h1 : (free0.map fun _ => WStatus.idle).countP isHeld = 0 := by
      rw [List.countP_eq_zero]
      intro w hw
      obtain ⟨x, _, hx⟩ := List.mem_map.mp hw
      rw [← hx]
      simp
    unfold initState
    dsimp only
    rw [h1]
    omega

/-- C5: if every destination is unreachable or full (its reported free
space is below every pending file's size) while at least one file is
pending, then whenever the drain pass finishes (all workers done), the
pending count equals the full initial backlog (nonzero), the
all_dests_full flag is set, and the main-loop iteration that ran this
drain terminates instead of looping. -/
theorem claim_C5_global_exhaustion
    (plots : List PlotFile) (free0 : List Nat) (bad : Nat → Bool) (t : State)
    (hne : plots ≠ [])
    (hsz : ∀ p ∈ plots, 0 < p.size)
    (hfull : ∀ (d f : Nat), bad d = false → free0[d]? = some f →
       ∀ p ∈ plots, f < p.size)
    (hr : ReachIn (C5Acts bad) (initState plots free0) t)
    (hdone : allDone t = true) :
    t.queue.length = plots.length ∧ 0 < t.queue.length ∧
    drainSetsFull t = true ∧
    (∀ (o : IterOracle) (st : LoopSt), st.allDestsFull = false →
       0 < o.scanCount → o.drainFull = true →
       (runIter o st).2.2 = IterOutcome.terminated) := by
  have hfull' : ∀ d : Nat, bad d = false → ∀ p ∈ plots,
      ((free0[d]?).getD 0) < p.size := by
    intro d hb p hp
    cases hf : free0[d]? with
    | none => simpa using hsz p hp
    | some f => simpa using hfull d f hb hf p hp
  obtain ⟨_, _, _, _, _, hcons⟩ :=
    C5Inv_reach hfull' hr (C5Inv_init plots free0)
  have hcnt : t.workers.countP isHeld = 0 := by
    rw [List.countP_eq_zero]
    intro w hw
    unfold allDone at hdone
    rw [List.all_eq_true] at hdone
    have hwd := hdone w hw
    simp at hwd
    rw [hwd]
    simp
  have hlen : t.queue.length = plots.length := by omega
  have hpos : 0 < t.queue.length := by
    rw [hlen]
    cases hp : plots with
    | nil => exact absurd hp hne
    | cons a l => simp
  refine ⟨hlen, hpos, ?_, ?_⟩
  · unfold drainSetsFull
    cases hq : t.queue with
    | nil => rw [hq] at hpos; simp at hpos
    | cons a l => rfl
  · intro o st h1 h2 h3
    simp [runIter, h1, h2, h3]

/-- Witness for C5: one 10 GB plot, one reachable destination with 5 GB
free, two scheduling steps ending the pass with the plot still pending. -/
theorem claim_C5_witness :
    (State.mk [plotA] [] [.done] [5] [0] [plotA] 0 0).queue.length
        = ([plotA] : List PlotFile).length ∧
    0 < (State.mk [plotA] [] [.done] [5] [0] [plotA] 0 0).queue.length ∧
    drainSetsFull (State.mk [plotA] [] [.done] [5] [0] [plotA] 0 0) = true ∧
    (∀ (o : IterOracle) (st : LoopSt), st.allDestsFull = false →
       0 < o.scanCount → o.drainFull = true →
       (runIter o st).2.2 = IterOutcome.terminated) :=
  claim_C5_global_exhaustion [plotA] [5] (fun _ => false)
    (State.mk [plotA] [] [.done] [5] [0] [plotA] 0 0)
    (by decide) (by decide)
    (by
      intro d f hb hf p hp
      simp at hp
      subst hp
      match d with
      | 0 =>
        simp at hf
        simp [plotA]
        omega
      | n + 1 => simp at hf)
    (reachIn_of_runTrace [.sched 0, .test 0 true true]
      (by
        intro a ha
        simp at ha
        rcases ha with rfl | rfl
        · trivial
        · exact ⟨rfl, rfl⟩)
      (by decide))
    (by decide)

def plotC : PlotFile := ⟨2, 10⟩

/-- The three 10 GB files of the spec's capacity scenario. -/
def scPlots : List PlotFile := [plotA, plotB, plotC]

/-- Scenario start: destination A reports 25 GB free, destination B 5 GB. -/
def scInit : State := initState scPlots [25, 5]

/-- Scenario environment: every probe succeeds, destinations are mounted,
every admitted transfer succeeds (exit 0), no external deletions. -/
def SA : Act → Prop := fun a =>
  match a with
  | .sched _ => True
  | .test _ ok mtd => ok = true ∧ mtd = true
  | .xfer _ c => c = 0
  | .vanish _ => False

/-- 1 when the worker holds a plot. -/
def hCnt (w : WStatus) : Nat := if isHeld w then 1 else 0

/-- 1 when the worker holds plot p. -/
def owC (p : PlotFile) (w : WStatus) : Nat :=
  if heldBy w = some p then 1 else 0

@[simp] theorem hCnt_idle : hCnt .idle = 0 := rfl
@[simp] theorem hCnt_awaitTest (p : PlotFile) : hCnt (.awaitTest p) = 1 := rfl
@[simp] theorem hCnt_awaitTransfer (p : PlotFile) : hCnt (.awaitTransfer p) = 1 := rfl
@[simp] theorem hCnt_done : hCnt .done = 0 := rfl

theorem hCnt_le_one (w : WStatus) : hCnt w ≤ 1 := by
  cases w <;> simp

@[simp] theorem owC_idle (p : PlotFile) : owC p .idle = 0 := rfl
@[simp] theorem owC_done (p : PlotFile) : owC p .done = 0 := rfl

@[simp] theorem owC_awaitTest (p q : PlotFile) :
    owC p (.awaitTest q) = if q = p then 1 else 0 := by
  unfold owC heldBy
  simp

@[simp] theorem owC_awaitTransfer (p q : PlotFile) :
    owC p (.awaitTransfer q) = if q = p then 1 else 0 := by
  unfold owC heldBy
  simp

theorem scPlots_size : ∀ p ∈ scPlots, p.size = 10 := by decide

/-- Invariant of the capacity scenario: worker and bookkeeping lists keep
their shape, destination B (index 1) never admits a transfer and keeps its
5 GB and zero received count, destination A's free space plus 10 GB per
received plot is always the initial 25 GB, every referenced plot is one of
the three scenario plots and still on disk, an admitted transfer fits in
A's reported free space, A's worker only stops after receiving 2 plots,
the number of pending+held plots plus delivered plots is 3, and each plot
is referenced at most once. -/
def SInv (t : State) : Prop :=
  ∃ w0 w1 fr0 r0,
    t.workers = [w0, w1] ∧ t.free = [fr0, 5] ∧ t.received = [r0, 0] ∧
    fr0 + 10 * r0 = 25 ∧
    (∀ p ∈ t.queue, p ∈ scPlots ∧ p ∈ t.sourceFS) ∧
    (∀ p : PlotFile, heldBy w0 = some p → p ∈ scPlots ∧ p ∈ t.sourceFS) ∧
    (∀ p : PlotFile, heldBy w1 = some p → p ∈ scPlots ∧ p ∈ t.sourceFS) ∧
    (∀ p : PlotFile, w0 = WStatus.awaitTransfer p → p.size ≤ fr0) ∧
    (∀ p : PlotFile, w1 ≠ WStatus.awaitTransfer p) ∧
    (w0 = WStatus.done → r0 = 2) ∧
    t.queue.length + hCnt w0 + hCnt w1 + r0 = 3 ∧
    (∀ p : PlotFile, t.queue.count p + owC p w0 + owC p w1 ≤ 1)

theorem SInv_init : SInv scInit := by
  refine ⟨.idle, .idle, 25, 0, rfl, rfl, rfl, rfl, ?_, ?_, ?_, ?_, ?_, ?_, ?_, ?_⟩
  · intro p hp
    exact ⟨hp, hp⟩
  · intro p hp
    simp [heldBy] at hp
  · intro p hp
    simp [heldBy] at hp
  · intro p hp
    simp at hp
  · intro p
    simp
  · intro h
    simp at h
  · rfl
  · intro p
    have hnd : scPlots.Nodup := by decide
    have := List.nodup_iff_count_le_one.mp hnd p
    simp
    exact this


theorem SInv_step_sched {t t' : State} {d : Nat}
    (hi : SInv t) (hstep : step t (.sched d) = some t') : SInv t' := by
  obtain ⟨w0, w1, fr0, r0, hwk, hfr, hrc, hfr25, hqm, hh0, hh1, hcap0, hnx1,
    hdone0, hcons, hown⟩ := hi
  cases d with
  | zero =>
    have hw0 : t.workers[0]? = some w0 := by rw [hwk]; rfl
    cases hcw : w0 with
    | awaitTest p => rw [hcw] at hw0; simp [step, hw0] at hstep
    | awaitTransfer p => rw [hcw] at hw0; simp [step, hw0] at hstep
    | done => rw [hcw] at hw0; simp [step, hw0] at hstep
    | idle =>
      rw [hcw] at hw0
      cases hq : t.queue with
      | nil =>
        simp only [step, hw0, hq, Option.some.injEq] at hstep
        subst hstep
        have hset : t.workers.set 0 .done = [.done, w1] := by rw [hwk]; rfl
        have hr0 : r0 = 2 := by
          rw [hq, hcw] at hcons
          have hb := hCnt_le_one w1
          simp at hcons
          omega
        refine ⟨.done, w1, fr0, r0, hset, hfr, hrc, hfr25, ?_, ?_, hh1, ?_,
          hnx1, fun _ => hr0, ?_, ?_⟩
        · intro p hp
          simp at hp
        · intro p hp
          simp [heldBy] at hp
        · intro p hp
          simp at hp
        · rw [hq, hcw] at hcons
          simp at hcons ⊢
          omega
        · intro p
          have h := hown p
          rw [hq, hcw] at h
          simp at h ⊢
          omega
      | cons p rest =>
        have hpm := hqm p (by rw [hq]; simp)
        have hps : p ∈ t.sourceFS := hpm.2
        simp only [step, hw0, hq, hps, if_true, Option.some.injEq] at hstep
        subst hstep
        have hset : t.workers.set 0 (.awaitTest p) = [.awaitTest p, w1] := by
          rw [hwk]; rfl
        refine ⟨.awaitTest p, w1, fr0, r0, hset, hfr, hrc, hfr25, ?_, ?_, hh1,
          ?_, hnx1, ?_, ?_, ?_⟩
        · intro q hqq
          exact hqm q (by rw [hq]; simp [hqq])
        · intro q hqq
          simp [heldBy] at hqq
          rw [← hqq]
          exact hpm
        · intro q hqq
          simp at hqq
        · intro hd0
          simp at hd0
        · rw [hq, hcw] at hcons
          simp at hcons ⊢
          omega
        · intro q
          have h := hown q
          rw [hq, hcw] at h
          rw [List.count_cons] at h
          simp at h ⊢
          by_cases hpq : p = q
          · subst hpq
            simp at h ⊢
            omega
          · simp [hpq, Ne.symm hpq] at h ⊢
            omega
  | succ d' =>
    cases d' with
    | zero =>
      have hw1 : t.workers[1]? = some w1 := by rw [hwk]; rfl
      cases hcw : w1 with
      | awaitTest p => rw [hcw] at hw1; simp [step, hw1] at hstep
      | awaitTransfer p => rw [hcw] at hw1; simp [step, hw1] at hstep
      | done => rw [hcw] at hw1; simp [step, hw1] at hstep
      | idle =>
        rw [hcw] at hw1
        cases hq : t.queue with
        | nil =>
          simp only [step, hw1, hq, Option.some.injEq] at hstep
          subst hstep
          have hset : t.workers.set 1 .done = [w0, .done] := by rw [hwk]; rfl
          refine ⟨w0, .done, fr0, r0, hset, hfr, hrc, hfr25, ?_, hh0, ?_,
            hcap0, ?_, hdone0, ?_, ?_⟩
          · intro p hp
            simp at hp
          · intro p hp
            simp [heldBy] at hp
          · intro p
            simp
          · rw [hq, hcw] at hcons
            simp at hcons ⊢
            omega
          · intro p
            have h := hown p
            rw [hq, hcw] at h
            simp at h ⊢
            omega
        | cons p rest =>
          have hpm := hqm p (by rw [hq]; simp)
          have hps : p ∈ t.sourceFS := hpm.2
          simp only [step, hw1, hq, hps, if_true, Option.some.injEq] at hstep
          subst hstep
          have hset : t.workers.set 1 (.awaitTest p) = [w0, .awaitTest p] := by
            rw [hwk]; rfl
          refine ⟨w0, .awaitTest p, fr0, r0, hset, hfr, hrc, hfr25, ?_, hh0,
            ?_, hcap0, ?_, hdone0, ?_, ?_⟩
          · intro q hqq
            exact hqm q (by rw [hq]; simp [hqq])
          · intro q hqq
            simp [heldBy] at hqq
            rw [← hqq]
            exact hpm
          · intro q
            simp
          · rw [hq, hcw] at hcons
            simp at hcons ⊢
            omega
          · intro q
            have h := hown q
            rw [hq, hcw] at h
            rw [List.count_cons] at h
            simp at h ⊢
            by_cases hpq : p = q
            · subst hpq
              simp at h ⊢
              omega
            · simp [hpq, Ne.symm hpq] at h ⊢
              omega
    | succ d'' =>
      have hw2 : t.workers[d'' + 2]? = none := by rw [hwk]; rfl
      simp [step, hw2] at hstep


theorem SInv_step_test {t t' : State} {d : Nat}
    (hi : SInv t) (hstep : step t (.test d true true) = some t') : SInv t' := by
  obtain ⟨w0, w1, fr0, r0, hwk, hfr, hrc, hfr25, hqm, hh0, hh1, hcap0, hnx1,
    hdone0, hcons, hown⟩ := hi
  cases d with
  | zero =>
    have hw0 : t.workers[0]? = some w0 := by rw [hwk]; rfl
    cases hcw : w0 with
    | idle => rw [hcw] at hw0; simp [step, hw0] at hstep
    | awaitTransfer p => rw [hcw] at hw0; simp [step, hw0] at hstep
    | done => rw [hcw] at hw0; simp [step, hw0] at hstep
    | awaitTest p =>
      rw [hcw] at hw0
      have hpm := hh0 p (by rw [hcw]; rfl)
      have hs10 : p.size = 10 := scPlots_size p hpm.1
      have hgd : (t.free[0]?).getD 0 = fr0 := by rw [hfr]; rfl
      by_cases hle : p.size ≤ fr0
      · have hchk : check_dest_space true ((t.free[0]?).getD 0) p.size = true := by
          unfold check_dest_space
          rw [hgd]
          simp [hle]
        simp only [step, hw0] at hstep
        rw [if_pos trivial, if_pos hchk] at hstep
        injection hstep with hstep
        subst hstep
        have hset : t.workers.set 0 (.awaitTransfer p) = [.awaitTransfer p, w1] := by
          rw [hwk]; rfl
        refine ⟨.awaitTransfer p, w1, fr0, r0, hset, hfr, hrc, hfr25, hqm, ?_,
          hh1, ?_, hnx1, ?_, ?_, ?_⟩
        · intro q hqq
          simp [heldBy] at hqq
          rw [← hqq]
          exact hpm
        · intro q hqq
          simp at hqq
          rw [← hqq]
          exact hle
        · intro hd0
          simp at hd0
        · rw [hcw] at hcons
          simp at hcons ⊢
          omega
        · intro q
          have h := hown q
          rw [hcw] at h
          simp at h ⊢
          by_cases hpq : p = q
          · subst hpq
            simp at h ⊢
            omega
          · simp [hpq] at h ⊢
            omega
      · have hchk : check_dest_space true ((t.free[0]?).getD 0) p.size = false := by
          unfold check_dest_space
          rw [hgd]
          simp
          omega
        simp only [step, hw0] at hstep
        rw [if_pos trivial, if_neg (by simp [hchk])] at hstep
        injection hstep with hstep
        subst hstep
        have hset : t.workers.set 0 .done = [.done, w1] := by rw [hwk]; rfl
        have hr0 : r0 = 2 := by omega
        refine ⟨.done, w1, fr0, r0, hset, hfr, hrc, hfr25, ?_, ?_, hh1, ?_,
          hnx1, fun _ => hr0, ?_, ?_⟩
        · intro q hqq
          simp at hqq
          rcases hqq with hqq | hqq
          · exact hqm q hqq
          · rw [hqq]
            exact hpm
        · intro q hqq
          simp [heldBy] at hqq
        · intro q hqq
          simp at hqq
        · rw [hcw] at hcons
          simp at hcons ⊢
          omega
        · intro q
          have h := hown q
          rw [hcw] at h
          simp [List.count_append, List.count_cons] at h ⊢
          by_cases hpq : p = q
          · subst hpq
            simp at h ⊢
            omega
          · simp [hpq, Ne.symm hpq] at h ⊢
            omega
  | succ d' =>
    cases d' with
    | zero =>
      have hw1 : t.workers[1]? = some w1 := by rw [hwk]; rfl
      cases hcw : w1 with
      | idle => rw [hcw] at hw1; simp [step, hw1] at hstep
      | awaitTransfer p => rw [hcw] at hw1; simp [step, hw1] at hstep
      | done => rw [hcw] at hw1; simp [step, hw1] at hstep
      | awaitTest p =>
        rw [hcw] at hw1
        have hpm := hh1 p (by rw [hcw]; rfl)
        have hs10 : p.size = 10 := scPlots_size p hpm.1
        have hgd : (t.free[1]?).getD 0 = 5 := by rw [hfr]; rfl
        have hchk : check_dest_space true ((t.free[1]?).getD 0) p.size = false := by
          unfold check_dest_space
          rw [hgd]
          simp
          omega
        simp only [step, hw1] at hstep
        rw [if_pos trivial, if_neg (by simp [hchk])] at hstep
        injection hstep with hstep
        subst hstep
        have hset : t.workers.set 1 .done = [w0, .done] := by rw [hwk]; rfl
        refine ⟨w0, .done, fr0, r0, hset, hfr, hrc, hfr25, ?_, hh0, ?_, hcap0,
          ?_, hdone0, ?_, ?_⟩
        · intro q hqq
          simp at hqq
          rcases hqq with hqq | hqq
          · exact hqm q hqq
          · rw [hqq]
            exact hpm
        · intro q hqq
          simp [heldBy] at hqq
        · intro q
          simp
        · rw [hcw] at hcons
          simp at hcons ⊢
          omega
        · intro q
          have h := hown q
          rw [hcw] at h
          simp [List.count_append, List.count_cons] at h ⊢
          by_cases hpq : p = q
          · subst hpq
            simp at h ⊢
            omega
          · simp [hpq, Ne.symm hpq] at h ⊢
            omega
    | succ d'' =>
      have hw2 : t.workers[d'' + 2]? = none := by rw [hwk]; rfl
      simp [step, hw2] at hstep


theorem SInv_step_xfer {t t' : State} {d : Nat}
    (hi : SInv t) (hstep : step t (.xfer d 0) = some t') : SInv t' := by
  obtain ⟨w0, w1, fr0, r0, hwk, hfr, hrc, hfr25, hqm, hh0, hh1, hcap0, hnx1,
    hdone0, hcons, hown⟩ := hi
  cases d with
  | zero =>
    have hw0 : t.workers[0]? = some w0 := by rw [hwk]; rfl
    cases hcw : w0 with
    | idle => rw [hcw] at hw0; simp [step, hw0] at hstep
    | awaitTest p => rw [hcw] at hw0; simp [step, hw0] at hstep
    | done => rw [hcw] at hw0; simp [step, hw0] at hstep
    | awaitTransfer p =>
      rw [hcw] at hw0
      have hpm := hh0 p (by rw [hcw]; rfl)
      have hs10 : p.size = 10 := scPlots_size p hpm.1
      have hle : p.size ≤ fr0 := hcap0 p hcw
      have hres : transfer_plot_result 0 = true := rfl
      simp only [step, hw0] at hstep
      rw [if_pos hres] at hstep
      injection hstep with hstep
      subst hstep
      have hset : t.workers.set 0 .idle = [.idle, w1] := by rw [hwk]; rfl
      have hfset : t.free.set 0 ((t.free[0]?).getD 0 - p.size)
          = [fr0 - p.size, 5] := by rw [hfr]; rfl
      have hrset : t.received.set 0 ((t.received[0]?).getD 0 + 1)
          = [r0 + 1, 0] := by rw [hrc]; rfl
      have hpnq : p ∉ t.queue := by
        intro hmem
        have h := hown p
        rw [hcw] at h
        have hc := List.count_pos_iff.mpr hmem
        simp at h
        omega
      refine ⟨.idle, w1, fr0 - p.size, r0 + 1, hset, hfset, hrset, ?_, ?_, ?_,
        ?_, ?_, hnx1, ?_, ?_, ?_⟩
      · omega
      · intro q hqq
        have hq' := hqm q hqq
        refine ⟨hq'.1, ?_⟩
        rw [setRemove_mem]
        refine ⟨hq'.2, ?_⟩
        intro hqp
        rw [hqp] at hqq
        exact hpnq hqq
      · intro q hqq
        simp [heldBy] at hqq
      · intro q hqq
        have hq' := hh1 q hqq
        refine ⟨hq'.1, ?_⟩
        rw [setRemove_mem]
        refine ⟨hq'.2, ?_⟩
        intro hqp
        subst hqp
        have h := hown q
        rw [hcw] at h
        unfold owC at h
        rw [hqq] at h
        simp [heldBy] at h
      · intro q hqq
        simp at hqq
      · intro hd0
        simp at hd0
      · rw [hcw] at hcons
        simp at hcons ⊢
        omega
      · intro q
        have h := hown q
        rw [hcw] at h
        simp at h ⊢
        by_cases hpq : p = q
        · subst hpq
          simp at h ⊢
          omega
        · simp [hpq] at h ⊢
          omega
  | succ d' =>
    cases d' with
    | zero =>
      have hw1 : t.workers[1]? = some w1 := by rw [hwk]; rfl
      cases hcw : w1 with
      | idle => rw [hcw] at hw1; simp [step, hw1] at hstep
      | awaitTest p => rw [hcw] at hw1; simp [step, hw1] at hstep
      | done => rw [hcw] at hw1; simp [step, hw1] at hstep
      | awaitTransfer p => exact absurd hcw (hnx1 p)
    | succ d'' =>
      have hw2 : t.workers[d'' + 2]? = none := by rw [hwk]; rfl
      simp [step, hw2] at hstep

/-- Preservation of the scenario invariant under every scenario action. -/
theorem SInv_step {t t' : State} {a : Act}
    (hA : SA a) (hi : SInv t) (hstep : step t a = some t') : SInv t' := by
  cases a with
  | sched d => exact SInv_step_sched hi hstep
  | test d ok mtd =>
    obtain ⟨h1, h2⟩ := hA
    subst h1
    subst h2
    exact SInv_step_test hi hstep
  | xfer d c =>
    have h1 : c = 0 := hA
    subst h1
    exact SInv_step_xfer hi hstep
  | vanish p => exact absurd hA (by simp [SA])

theorem SInv_reach {t : State} (hr : ReachIn SA scInit t) : SInv t := by
  induction hr with
  | refl => exact SInv_init
  | tail _ hbc ih =>
    obtain ⟨a, hA, hstep⟩ := hbc
    exact SInv_step hA ih hstep


/-- C4: capacity is respected.  (1) In any reachable drain state, a worker
suspended in a transfer of plot p has a destination whose reported free
space is at least p.size — a destination reporting F free never receives a
file larger than F.  (2) The worker checks free space before each transfer:
if it is insufficient the step requeues the file and ends that worker
(removing the destination from rotation).  (3) In the concrete scenario of
three 10 GB files with A reporting 25 GB and B reporting 5 GB free, A
receives at most 2 files, B receives 0, and any completed drain ends with
exactly 1 file pending and the all_dests_full flag set. -/
theorem claim_C4_capacity :
    (∀ (plots : List PlotFile) (free0 : List Nat) (t : State) (d : Nat)
       (p : PlotFile), plots.Nodup → Reach (initState plots free0) t →
       t.workers[d]? = some (WStatus.awaitTransfer p) →
       ∃ f, t.free[d]? = some f ∧ p.size ≤ f) ∧
    (∀ (s : State) (d : Nat) (p : PlotFile) (f : Nat),
       s.workers[d]? = some (WStatus.awaitTest p) → s.free[d]? = some f →
       f < p.size →
       step s (.test d true true)
         = some { s with queue := s.queue ++ [p],
                         workers := s.workers.set d .done }) ∧
    (∀ t : State, ReachIn SA scInit t →
       (∀ r : Nat, t.received[0]? = some r → r ≤ 2) ∧
       t.received[1]? = some 0 ∧
       (allDone t = true →
          t.queue.length = 1 ∧ t.received[0]? = some 2 ∧
          drainSetsFull t = true)) := by
  refine ⟨?_, ?_, ?_⟩
  · intro plots free0 t d p hnd hr hw
    exact (inv_reachIn hr (init_inv plots free0 hnd)).2.2.2 d p hw
  · intro s d p f hw hfd hlt
    have hchk : check_dest_space true ((s.free[d]?).getD 0) p.size = false := by
      unfold check_dest_space
      rw [hfd]
      simp
      omega
    simp only [step, hw]
    rw [if_pos trivial, if_neg (by simp [hchk])]
  · intro t hr
    obtain ⟨w0, w1, fr0, r0, hwk, hfr, hrc, hfr25, hqm, hh0, hh1, hcap0, hnx1,
      hdone0, hcons, hown⟩ := SInv_reach hr
    have hrc0 : t.received[0]? = some r0 := by rw [hrc]; rfl
    have hrc1 : t.received[1]? = some 0 := by rw [hrc]; rfl
    refine ⟨?_, hrc1, ?_⟩
    · intro r hreq
      rw [hrc0] at hreq
      injection hreq with hreq
      omega
    · intro hdone
      unfold allDone at hdone
      rw [hwk] at hdone
      simp at hdone
      obtain ⟨hw0d, hw1d⟩ := hdone
      have hr0 : r0 = 2 := hdone0 hw0d
      rw [hw0d, hw1d] at hcons
      simp at hcons
      have hlen : t.queue.length = 1 := by omega
      refine ⟨hlen, by rw [hrc0, hr0], ?_⟩
      unfold drainSetsFull
      cases hq : t.queue with
      | nil => rw [hq] at hlen; simp at hlen
      | cons a l => rfl

/-- Witness for C4: the fully played-out scenario schedule in which A takes
two files, is then found full, and B rejects the last file; plus the
check-then-requeue step at the concrete rejection state. -/
theorem claim_C4_witness :
    ((State.mk [plotC] [] [.done, .done] [5, 5] [2, 0] [plotC] 2 20
        : State).queue.length = 1 ∧
     (State.mk [plotC] [] [.done, .done] [5, 5] [2, 0] [plotC] 2 20
        : State).received[0]? = some 2 ∧
     drainSetsFull
       (State.mk [plotC] [] [.done, .done] [5, 5] [2, 0] [plotC] 2 20) = true) ∧
    step (State.mk [] [] [.awaitTest plotC] [5] [0] [plotC] 0 0)
        (.test 0 true true)
      = some { State.mk [] [] [.awaitTest plotC] [5] [0] [plotC] 0 0 with
          queue := (State.mk [] [] [.awaitTest plotC] [5] [0] [plotC] 0 0
            : State).queue ++ [plotC],
          workers := (State.mk [] [] [.awaitTest plotC] [5] [0] [plotC] 0 0
            : State).workers.set 0 .done } :=
  ⟨(claim_C4_capacity.2.2
      (State.mk [plotC] [] [.done, .done] [5, 5] [2, 0] [plotC] 2 20)
      (reachIn_of_runTrace
        [.sched 0, .test 0 true true, .xfer 0 0,
         .sched 0, .test 0 true true, .xfer 0 0,
         .sched 0, .test 0 true true,
         .sched 1, .test 1 true true]
        (by
          intro a ha
          fin_cases ha <;> trivial)
        (by decide))).2.2 (by decide),
   claim_C4_capacity.2.1
     (State.mk [] [] [.awaitTest plotC] [5] [0] [plotC] 0 0)
     0 plotC 5 (by decide) (by decide) (by decide)⟩

end SeedAndPlant
